import Mathlib

/-!
Shallow embedding of the audio cache subsystem of the music_api server
(`src/unnamed/part_000`): the filesystem-backed audio cache, its validity
check, metadata store, size-budget eviction, single-flight download
registry, stream responder, and the `/custom/audio/:id` request handler.

Filesystem state is modelled as a list of file records; cache-directory
files are identified by a base name plus an extension (`.bin` blob,
`.json` metadata sidecar, `.tmp` in-progress download), matching the flat
`{key}.bin` / `{key}.json` layout of the cache directory.  Effects whose
outcome depends on the outside world (network, stat failures, JSON parse
failures) are supplied as explicit oracle parameters.
-/

namespace MusicApi

/-- File extensions occurring in the cache directory. -/
inductive FileExt
  | bin
  | json
  | tmp
deriving DecidableEq, Repr

/-- One file in the cache directory: base name, extension, size, mtime. -/
structure FsFile where
  base : String
  ext : FileExt
  size : Nat
  mtimeMs : Nat
deriving DecidableEq, Repr

/-- The cache directory contents. -/
abbrev Fs := List FsFile

/-- Identity of a file: its (base, extension) pair. -/
def fileId (f : FsFile) : String × FileExt := (f.base, f.ext)

/-- Look up the file with the given base and extension. -/
def findFile (fs : Fs) (b : String) (e : FileExt) : Option FsFile :=
  fs.find? (fun f => f.base == b && f.ext == e)

/-- Does a file with the given base and extension exist? -/
def hasFile (fs : Fs) (b : String) (e : FileExt) : Bool :=
  fs.any (fun f => f.base == b && f.ext == e)

/-- Write (create or overwrite) a file. -/
def setFile (fs : Fs) (b : String) (e : FileExt) (size mtime : Nat) : Fs :=
  ⟨b, e, size, mtime⟩ :: fs.filter (fun f => !(f.base == b && f.ext == e))

/-- Delete a file (no-op when absent). -/
def deleteFile (fs : Fs) (b : String) (e : FileExt) : Fs :=
  fs.filter (fun f => !(f.base == b && f.ext == e))

/-- `removeCacheEntry` (part_000 lines 46-53): best-effort deletion of both
the `.bin` blob and the `.json` metadata of a cache entry; tolerant of
either being absent, never fails. -/
def removeCacheEntry (basePath : String) (fs : Fs) : Fs :=
  fs.filter (fun f =>
    !(f.base == basePath && (f.ext == FileExt.bin || f.ext == FileExt.json)))

/-- Result of `getCacheStatus`. -/
structure CacheStatus where
  valid : Bool
  reason : Option String
deriving DecidableEq, Repr

/-- `getCacheStatus` (part_000 lines 59-72): stat the blob; a stat failure
is reported as invalid/missing (`statMtime = none`); with a positive TTL,
an entry whose age exceeds the TTL is invalid/expired; otherwise valid. -/
def getCacheStatus (ttlMs now : Nat) (statMtime : Option Nat) : CacheStatus :=
  match statMtime with
  | none => ⟨false, some "missing"⟩
  | some mtime =>
    if 0 < ttlMs ∧ ttlMs < now - mtime then ⟨false, some "expired"⟩
    else ⟨true, none⟩

/-- Cache metadata sidecar record (the fields the server reads back). -/
structure Metadata where
  contentType : Option String
  contentLength : Option String
  originalFilename : Option String
deriving DecidableEq, Repr

/-- `readCacheMetadata` (part_000 lines 78-85): `none` marks a read
failure, `some none` a JSON parse failure; both yield `none` (null),
never an exception. -/
def readCacheMetadata : Option (Option Metadata) → Option Metadata
  | some (some m) => some m
  | _ => none

/-- JavaScript truthiness of an optional string (absent or empty is falsy). -/
def truthyStr : Option String → Bool
  | none => false
  | some s => !s.isEmpty

/-- One scanned blob entry of the eviction pass (part_000 lines 108-122). -/
structure CacheEntry where
  base : String
  size : Nat
  mtimeMs : Nat
deriving DecidableEq, Repr

/-- The `.bin` entries of the directory whose stat succeeded, in directory
order, as collected by the loop in part_000 lines 108-122. -/
def scanEntries (statOk : String → Bool) (fs : Fs) : List CacheEntry :=
  (fs.filter (fun f => f.ext == FileExt.bin && statOk f.base)).map
    (fun f => ⟨f.base, f.size, f.mtimeMs⟩)

/-- Stable insertion step of the mtime sort (`sort((a, b) => a.mtimeMs - b.mtimeMs)`). -/
def insertByMtime (e : CacheEntry) : List CacheEntry → List CacheEntry
  | [] => [e]
  | x :: xs =>
    if x.mtimeMs < e.mtimeMs then x :: insertByMtime e xs else e :: x :: xs

/-- Stable ascending sort by mtime (part_000 line 124). -/
def sortByMtime : List CacheEntry → List CacheEntry
  | [] => []
  | x :: xs => insertByMtime x (sortByMtime xs)

/-- Total size of a list of scanned entries (part_000 line 125). -/
def sumSizes (l : List CacheEntry) : Nat := (l.map (·.size)).sum

/-- Number of entries the eviction loop (part_000 lines 127-132) removes:
it shifts entries off the front while the running total exceeds the
budget and entries remain. -/
def evictCount (maxBytes : Nat) : List CacheEntry → Nat → Nat
  | [], _ => 0
  | e :: rest, total =>
    if maxBytes < total then evictCount maxBytes rest (total - e.size) + 1 else 0

/-- The eviction loop (part_000 lines 127-132) acting on the filesystem:
while the running total exceeds the budget, remove the front (oldest)
entry via `removeCacheEntry` and subtract its size. -/
def evictLoop (maxBytes : Nat) : List CacheEntry → Nat → Fs → Fs
  | [], _, fs => fs
  | e :: rest, total, fs =>
    if maxBytes < total then
      evictLoop maxBytes rest (total - e.size) (removeCacheEntry e.base fs)
    else fs

/-- `enforceCacheSizeLimit` (part_000 lines 99-133): no-op when no byte
budget is configured (`AUDIO_CACHE_MAX_BYTES` is 0) or when the directory
listing fails (`readdirOk = false`); otherwise scan the `.bin` files
(skipping those whose stat fails), sort ascending by mtime, sum the
sizes, and evict oldest-first while over budget. -/
def enforceCacheSizeLimit (maxBytes : Nat) (readdirOk : Bool)
    (statOk : String → Bool) (fs : Fs) : Fs :=
  if maxBytes = 0 then fs
  else if !readdirOk then fs
  else
    let entries := sortByMtime (scanEntries statOk fs)
    evictLoop maxBytes entries (sumSizes entries) fs

/-- The in-flight download registry (`inflightDownloads`, part_000 line 32)
together with a counter allocating fresh promise handles. -/
structure InflightState where
  inflight : List (String × Nat)
  nextId : Nat
deriving DecidableEq, Repr

/-- Result of the synchronous prologue of `downloadAndCacheAudio`: the
promise handle returned to the caller, the updated registry state, and
whether a new download was started. -/
structure EntryResult where
  promise : Nat
  state : InflightState
  startedNew : Bool
deriving DecidableEq, Repr

/-- The registry check-and-insert of `downloadAndCacheAudio` (part_000
lines 206-241): if the base path is already mapped, return the registered
pending promise unchanged; otherwise create a fresh promise, register it,
and start the download. -/
def downloadAndCacheAudioEntry (st : InflightState) (key : String) : EntryResult :=
  match st.inflight.lookup key with
  | some p => ⟨p, st, false⟩
  | none => ⟨st.nextId, ⟨(key, st.nextId) :: st.inflight, st.nextId + 1⟩, true⟩

/-- The `.finally` handler (part_000 lines 236-238): once the fetch
settles (success or failure), its base path is deleted from the registry. -/
def settleInflight (st : InflightState) (key : String) : InflightState :=
  ⟨st.inflight.filter (fun p => !(p.1 == key)), st.nextId⟩

/-- Oracle for the effectful steps of the download body: whether each
step succeeds, the downloaded byte counts, the upstream response headers,
and the current time. -/
structure DlOracle where
  ensureOk : Bool
  networkOk : Bool
  pipeOk : Bool
  renameOk : Bool
  metaOk : Bool
  interruptedBytes : Nat
  fullBytes : Nat
  respContentType : Option String
  respContentLength : Option String
  now : Nat
deriving DecidableEq, Repr

/-- Filesystem events emitted by the download body, in order. -/
inductive FsEvent
  | writeBytes (base : String) (ext : FileExt) (n : Nat)
  | renameFile (srcBase : String) (srcExt : FileExt) (dstBase : String) (dstExt : FileExt)
  | metaWrite (base : String)
deriving DecidableEq, Repr

/-- Outcome of the download body: the returned blob path, or a rejection
tagged with the failing stage. -/
inductive DlResult
  | ok (path : String × FileExt)
  | err (stage : String)
deriving DecidableEq, Repr

/-- The metadata record written by `writeCacheMetadata` (part_000 lines
226-232): content type defaults to audio/mpeg, content length kept only
when the upstream header was truthy. -/
def builtMetadata (o : DlOracle) (extraFilename : Option String) : Metadata :=
  { contentType :=
      some (if truthyStr o.respContentType then o.respContentType.getD "" else "audio/mpeg")
    contentLength := if truthyStr o.respContentLength then o.respContentLength else none
    originalFilename := extraFilename }

/-- The async body of `downloadAndCacheAudio` (part_000 lines 213-235):
ensure the cache dir, GET the url as a stream, pipe it into `<base>.tmp`,
rename the temp file to `<base>.bin`, write `<base>.json`, then run the
size-budget eviction.  Any step failure rejects with that stage's error
and stops.  Returns the settled result, the final filesystem, and the
trace of write/rename/metadata events. -/
def downloadAndCacheAudioBody (o : DlOracle) (maxBytes : Nat) (readdirOk : Bool)
    (statOk : String → Bool) (base : String) (fs : Fs) :
    DlResult × Fs × List FsEvent :=
  if !o.ensureOk then (.err "ensureDir", fs, [])
  else if !o.networkOk then (.err "request", fs, [])
  else if !o.pipeOk then
    (.err "pipeline", setFile fs base FileExt.tmp o.interruptedBytes o.now,
      [FsEvent.writeBytes base FileExt.tmp o.interruptedBytes])
  else
    let fs1 := setFile fs base FileExt.tmp o.fullBytes o.now
    if !o.renameOk then
      (.err "rename", fs1, [FsEvent.writeBytes base FileExt.tmp o.fullBytes])
    else
      let fs2 := setFile (deleteFile fs1 base FileExt.tmp) base FileExt.bin o.fullBytes o.now
      if !o.metaOk then
        (.err "metaWrite", fs2,
          [FsEvent.writeBytes base FileExt.tmp o.fullBytes,
           FsEvent.renameFile base FileExt.tmp base FileExt.bin])
      else
        let fs3 := setFile fs2 base FileExt.json 0 o.now
        (.ok (base, FileExt.bin), enforceCacheSizeLimit maxBytes readdirOk statOk fs3,
          [FsEvent.writeBytes base FileExt.tmp o.fullBytes,
           FsEvent.renameFile base FileExt.tmp base FileExt.bin,
           FsEvent.metaWrite base])

/-- Scans an event trace: `true` iff no metadata write for `base` occurs
before the first rename of `<base>.tmp` to `<base>.bin`. -/
def metaAfterRenameIn (base : String) : List FsEvent → Bool
  | [] => true
  | FsEvent.metaWrite b :: rest =>
    if b == base then false else metaAfterRenameIn base rest
  | FsEvent.renameFile b FileExt.tmp b2 FileExt.bin :: rest =>
    if b == base && b2 == base then true else metaAfterRenameIn base rest
  | _ :: rest => metaAfterRenameIn base rest

/-- The response headers set by `streamCachedAudio` (part_000 lines
178-190): each header only when its metadata field is truthy, plus the
X-Cache-Hit diagnostic header. -/
structure HeadersSet where
  contentType : Option String
  contentLength : Option String
  contentDisposition : Option String
  xCacheHit : String
deriving DecidableEq, Repr

/-- Header computation of `streamCachedAudio`. -/
def streamHeaders (meta : Option Metadata) (cacheHit : Bool) : HeadersSet :=
  { contentType :=
      if truthyStr (meta.bind (·.contentType)) then meta.bind (·.contentType) else none
    contentLength :=
      if truthyStr (meta.bind (·.contentLength)) then meta.bind (·.contentLength) else none
    contentDisposition :=
      if truthyStr (meta.bind (·.originalFilename)) then
        some ("inline; filename=\"" ++ (meta.bind (·.originalFilename)).getD "" ++ "\"")
      else none
    xCacheHit := if cacheHit then "1" else "0" }

/-- What the client connection observes from `streamCachedAudio`. -/
inductive StreamOutcome
  | streamed (h : HeadersSet)
  | errorResponse (h : HeadersSet)
  | connectionDestroyed (h : HeadersSet)
deriving DecidableEq, Repr

/-- `streamCachedAudio` (part_000 lines 177-201): set headers, open a read
stream on the blob and pipe it; on a read error (including a missing
blob file) respond 500 with a structured body when headers are unsent,
otherwise destroy the connection.  The filesystem is returned unchanged:
the function never deletes or rewrites cache files. -/
def streamCachedAudio (fs : Fs) (basePath : String) (meta : Option Metadata)
    (cacheHit : Bool) (readFails headersSent : Bool) : StreamOutcome × Fs :=
  let h := streamHeaders meta cacheHit
  if readFails || !hasFile fs basePath FileExt.bin then
    if headersSent then (.connectionDestroyed h, fs) else (.errorResponse h, fs)
  else (.streamed h, fs)

/-- One item of the resolver's `data` array. -/
structure SongItem where
  id : String
  url : Option String
  type : Option String
deriving DecidableEq, Repr

/-- The `data` field of the resolver body: an array, or some non-array value. -/
inductive DataField
  | arr (items : List SongItem)
  | notArray
deriving DecidableEq, Repr

/-- The resolver response body. -/
structure ModuleBody where
  data : Option DataField
deriving DecidableEq, Repr

/-- The resolver (`songUrlModule`) response. -/
structure ModuleResponse where
  status : Nat
  body : Option ModuleBody
deriving DecidableEq, Repr

/-- Body forwarded on a non-200 resolver response (part_000 lines
459-464): `moduleResponse.body || { code: moduleResponse.status }`. -/
inductive FwdBody
  | fromModule (b : ModuleBody)
  | codeOnly (code : Nat)
deriving DecidableEq, Repr

/-- `moduleResponse.body || { code: status }`. -/
def fwdBodyOf (m : ModuleResponse) : FwdBody :=
  match m.body with
  | some b => FwdBody.fromModule b
  | none => FwdBody.codeOnly m.status

/-- The response of the `/custom/audio/:id` handler as the client sees it. -/
inductive HandlerResp
  | badRequest400
  | hit (s : StreamOutcome)
  | forward (status : Nat) (body : FwdBody)
  | notFound404
  | forbidden403
  | miss (s : StreamOutcome)
  | proxyError500
deriving DecidableEq, Repr

/-- Full result of one handler run: the response, the filesystem right
after the expiry-removal step, whether the miss path was taken, and the
`(cacheBasePath, url)` argument of the download call when one was made. -/
structure HandlerResult where
  resp : HandlerResp
  fsAfterExpiry : Fs
  wasMiss : Bool
  downloadCalled : Option (String × String)
deriving Repr

/-- The quality token of the cache key (part_000 lines 432-433):
`bitrate || level || 'default'` with `bitrate = br ? String(br) : undefined`. -/
def qualityToken (br level : Option String) : String :=
  if truthyStr br then br.getD ""
  else if truthyStr level then level.getD ""
  else "default"

/-- The cache key (part_000 line 433): `` `${id}_${bitrate || level || 'default'}` ``. -/
def cacheKey (id : String) (br level : Option String) : String :=
  id ++ "_" ++ qualityToken br level

/-- The miss path of the handler (part_000 lines 449-498): await the
resolver, map its outcome (non-200 forwarded, malformed/empty data to
404, missing url to 403), download, and stream the fresh entry.  A
rejection of the resolver or of the download falls into the handler's
catch block, which answers 500 (part_000 lines 499-502). -/
def resolveAndFetch (key id : String) (fs1 : Fs) (metaRaw : Option (Option Metadata))
    (resolver : Except Unit ModuleResponse) (download : Except Unit Fs)
    (readFails headersSent : Bool) : HandlerResult :=
  match resolver with
  | .error _ => ⟨.proxyError500, fs1, true, none⟩
  | .ok m =>
    if m.status ≠ 200 then ⟨.forward m.status (fwdBodyOf m), fs1, true, none⟩
    else
      match m.body.bind (·.data) with
      | some (DataField.arr (it0 :: rest)) =>
        let target := ((it0 :: rest).find? (fun it => it.id == id)).getD it0
        if !truthyStr target.url then ⟨.forbidden403, fs1, true, none⟩
        else
          match download with
          | .error _ => ⟨.proxyError500, fs1, true, some (key, target.url.getD "")⟩
          | .ok fsDl =>
            ⟨.miss (streamCachedAudio fsDl key (readCacheMetadata metaRaw) false
                readFails headersSent).1,
              fs1, true, some (key, target.url.getD "")⟩
      | _ => ⟨.notFound404, fs1, true, none⟩

/-- The `/custom/audio/:id` handler (part_000 lines 423-503).  Oracles:
`metaRaw` feeds `readCacheMetadata`, `resolver` is the settled
`songUrlModule` call (`.error` = rejected), `download` is the settled
`downloadAndCacheAudio` call (`.ok` carries the filesystem it produced),
`readFails`/`headersSent` drive the stream responder. -/
def audioHandler (ttlMs now : Nat) (id : String) (br level : Option String)
    (fs : Fs) (metaRaw : Option (Option Metadata))
    (resolver : Except Unit ModuleResponse)
    (download : Except Unit Fs)
    (readFails headersSent : Bool) : HandlerResult :=
  if id.isEmpty then ⟨.badRequest400, fs, false, none⟩
  else
    let key := cacheKey id br level
    let cacheStatus := getCacheStatus ttlMs now ((findFile fs key FileExt.bin).map (·.mtimeMs))
    if cacheStatus.valid then
      ⟨.hit (streamCachedAudio fs key (readCacheMetadata metaRaw) true readFails headersSent).1,
        fs, false, none⟩
    else
      let fs1 := if cacheStatus.reason == some "expired" then removeCacheEntry key fs else fs
      resolveAndFetch key id fs1 metaRaw resolver download readFails headersSent

/-! ## Helper lemmas -/

lemma lookup_filter_ne (key : String) (l : List (String × Nat)) :
    (l.filter (fun p => !(p.1 == key))).lookup key = none := by
  induction l with
  | nil => rfl
  | cons hd tl ih =>
    by_cases h : hd.1 = key
    · simpa [List.filter_cons, h] using ih
    · have hne : (hd.1 == key) = false := beq_eq_false_iff_ne.mpr h
      have hne2 : (key == hd.1) = false :=
        beq_eq_false_iff_ne.mpr (fun hh => h hh.symm)
      simp [List.filter_cons, hne, List.lookup, hne2, ih]

lemma hasFile_of_findFile {fs : Fs} {b : String} {e : FileExt} {f : FsFile}
    (h : findFile fs b e = some f) : hasFile fs b e = true := by
  have hmem := List.mem_of_find?_eq_some h
  have hp := List.find?_some h
  exact List.any_eq_true.mpr ⟨f, hmem, hp⟩

/-! ## C1: single-flight registry behaviour -/

/-- C1: if the in-flight registry already maps the base path to a pending
fetch, `downloadAndCacheAudio` returns that same registered result and
changes nothing; otherwise it registers exactly one new pending fetch
(returned to the caller) before returning; and settling deletes the path
from the registry, so a subsequent call starts a fresh fetch. -/
theorem C1_single_flight (st : InflightState) (key : String) (p : Nat) :
    (st.inflight.lookup key = some p →
      downloadAndCacheAudioEntry st key = ⟨p, st, false⟩) ∧
    (st.inflight.lookup key = none →
      (downloadAndCacheAudioEntry st key).startedNew = true ∧
      (downloadAndCacheAudioEntry st key).state.inflight =
        (key, (downloadAndCacheAudioEntry st key).promise) :: st.inflight ∧
      (downloadAndCacheAudioEntry st key).state.inflight.lookup key =
        some (downloadAndCacheAudioEntry st key).promise) ∧
    (settleInflight st key).inflight.lookup key = none ∧
    (downloadAndCacheAudioEntry (settleInflight st key) key).startedNew = true := by
  refine ⟨fun h => ?_, fun h => ?_, ?_, ?_⟩
  · simp [downloadAndCacheAudioEntry, h]
  · simp [downloadAndCacheAudioEntry, h, List.lookup]
  · exact lookup_filter_ne key st.inflight
  · simp [downloadAndCacheAudioEntry, settleInflight, lookup_filter_ne]

theorem C1_single_flight_witness :
    downloadAndCacheAudioEntry ⟨[("k", 5)], 6⟩ "k" = ⟨5, ⟨[("k", 5)], 6⟩, false⟩ ∧
    (downloadAndCacheAudioEntry ⟨[], 0⟩ "k").startedNew = true ∧
    (settleInflight ⟨[("k", 5)], 6⟩ "k").inflight.lookup "k" = none := by
  refine ⟨(C1_single_flight ⟨[("k", 5)], 6⟩ "k" 5).1 (by rfl), ?_,
    (C1_single_flight ⟨[("k", 5)], 6⟩ "k" 5).2.2.1⟩
  exact ((C1_single_flight ⟨[], 0⟩ "k" 0).2.1 (by rfl)).1

/-! ## C7: stream responder error isolation -/

/-- C7: a read error in `streamCachedAudio` yields a structured 500
response when headers are unsent and destroys the connection when they
are sent; the filesystem cache state is unchanged in every case. -/
theorem C7_stream_error_isolation (fs : Fs) (basePath : String)
    (meta : Option Metadata) (cacheHit readFails headersSent : Bool) :
    (streamCachedAudio fs basePath meta cacheHit true false).1 =
      StreamOutcome.errorResponse (streamHeaders meta cacheHit) ∧
    (streamCachedAudio fs basePath meta cacheHit true true).1 =
      StreamOutcome.connectionDestroyed (streamHeaders meta cacheHit) ∧
    (streamCachedAudio fs basePath meta cacheHit readFails headersSent).2 = fs := by
  refine ⟨by simp [streamCachedAudio], by simp [streamCachedAudio], ?_⟩
  unfold streamCachedAudio
  split
  · split <;> rfl
  · rfl

lemma hasFile_removeCacheEntry (b : String) (fs : Fs) (e : FileExt)
    (he : e = FileExt.bin ∨ e = FileExt.json) :
    hasFile (removeCacheEntry b fs) b e = false := by
  rw [hasFile, List.any_eq_false]
  intro f hf
  have hq := List.of_mem_filter hf
  intro hp
  simp only [Bool.and_eq_true, beq_iff_eq] at hp
  rcases hp with ⟨hb, hext⟩
  rcases he with he | he <;>
    simp [hb, hext, he] at hq

lemma removeCacheEntry_eq_self (b : String) (fs : Fs)
    (hbin : hasFile fs b FileExt.bin = false)
    (hjson : hasFile fs b FileExt.json = false) :
    removeCacheEntry b fs = fs := by
  rw [hasFile, List.any_eq_false] at hbin hjson
  rw [removeCacheEntry, List.filter_eq_self]
  intro f hf
  have h1 := hbin f hf
  have h2 := hjson f hf
  simp only [Bool.and_eq_true, beq_iff_eq, not_and] at h1 h2
  simp only [Bool.not_eq_true']
  by_cases hb : f.base = b
  · have e1 : (f.ext == FileExt.bin) = false := by
      rcases hext : f.ext <;> simp_all
    have e2 : (f.ext == FileExt.json) = false := by
      rcases hext : f.ext <;> simp_all
    simp [e1, e2]
  · simp [beq_eq_false_iff_ne.mpr hb]

lemma resolveAndFetch_shape (key id : String) (fs1 : Fs)
    (metaRaw : Option (Option Metadata)) (resolver : Except Unit ModuleResponse)
    (download : Except Unit Fs) (readFails headersSent : Bool) :
    (resolveAndFetch key id fs1 metaRaw resolver download readFails headersSent).fsAfterExpiry = fs1 ∧
    (resolveAndFetch key id fs1 metaRaw resolver download readFails headersSent).wasMiss = true ∧
    ∀ s, (resolveAndFetch key id fs1 metaRaw resolver download readFails headersSent).resp ≠
      HandlerResp.hit s := by
  unfold resolveAndFetch
  rcases resolver with _ | m
  · simp
  · dsimp only
    split
    · simp
    · split
      · split
        · simp
        · rcases download with _ | fsDl <;> simp
      · simp

/-! ## C8: cache-layer I/O errors swallowed with safe defaults -/

/-- C8: `readCacheMetadata` yields null (never an exception) on a read
failure or a parse failure; a valid entry with null metadata is still
served as a hit with default headers (only the hit marker set), not
treated as a miss; and `removeCacheEntry` never fails, also when the
blob, the metadata, or both are already absent. -/
theorem C8_cache_io_defaults (ttlMs now : Nat) (id : String) (br level : Option String)
    (fs fs2 : Fs) (b : String) (f : FsFile) (metaRaw : Option (Option Metadata))
    (resolver : Except Unit ModuleResponse) (download : Except Unit Fs) (hs : Bool)
    (hid : id.isEmpty = false)
    (hfind : findFile fs (cacheKey id br level) FileExt.bin = some f)
    (hvalid : getCacheStatus ttlMs now (some f.mtimeMs) = ⟨true, none⟩)
    (hmeta : readCacheMetadata metaRaw = none)
    (hbin : hasFile fs2 b FileExt.bin = false)
    (hjson : hasFile fs2 b FileExt.json = false) :
    readCacheMetadata none = none ∧
    readCacheMetadata (some none) = none ∧
    audioHandler ttlMs now id br level fs metaRaw resolver download false hs =
      ⟨.hit (.streamed (streamHeaders none true)), fs, false, none⟩ ∧
    streamHeaders none true = ⟨none, none, none, "1"⟩ ∧
    removeCacheEntry b fs2 = fs2 ∧
    hasFile (removeCacheEntry b fs) b FileExt.bin = false ∧
    hasFile (removeCacheEntry b fs) b FileExt.json = false := by
  refine ⟨rfl, rfl, ?_, rfl, removeCacheEntry_eq_self b fs2 hbin hjson,
    hasFile_removeCacheEntry b fs FileExt.bin (Or.inl rfl),
    hasFile_removeCacheEntry b fs FileExt.json (Or.inr rfl)⟩
  unfold audioHandler
  simp only [hid, Bool.false_eq_true, if_false]
  rw [hfind]
  simp only [Option.map_some', hvalid, if_pos rfl]
  rw [streamCachedAudio, hmeta]
  simp [hasFile_of_findFile hfind]

theorem C8_cache_io_defaults_witness :
    audioHandler 0 7 "s" none none [⟨"s_default", FileExt.bin, 5, 3⟩] none
        (Except.error ()) (Except.error ()) false false =
      ⟨.hit (.streamed (streamHeaders none true)),
        [⟨"s_default", FileExt.bin, 5, 3⟩], false, none⟩ ∧
    removeCacheEntry "x" [⟨"s_default", FileExt.bin, 5, 3⟩] =
      [⟨"s_default", FileExt.bin, 5, 3⟩] := by
  have h := C8_cache_io_defaults 0 7 "s" none none
    [⟨"s_default", FileExt.bin, 5, 3⟩] [⟨"s_default", FileExt.bin, 5, 3⟩] "x"
    ⟨"s_default", FileExt.bin, 5, 3⟩ none (Except.error ()) (Except.error ()) false
    (by rfl) (by rfl) (by rfl) (by rfl) (by rfl) (by rfl)
  exact ⟨h.2.2.1, h.2.2.2.2.1⟩

/-! ## C4: validity check and TTL handling -/

/-- C4: `getCacheStatus` reports invalid/missing when the blob cannot be
stat'ed, invalid/expired when a positive TTL is exceeded by the blob's
age, and valid otherwise (TTL 0 disables expiry); on an expired entry the
request handler deletes both the blob and the metadata files and then
proceeds as a miss, never serving the expired entry as a hit. -/
theorem C4_validity_ttl (ttlMs now mt : Nat) (id : String) (br level : Option String)
    (fs : Fs) (f : FsFile) (metaRaw : Option (Option Metadata))
    (resolver : Except Unit ModuleResponse) (download : Except Unit Fs)
    (readFails headersSent : Bool)
    (hid : id.isEmpty = false)
    (hfind : findFile fs (cacheKey id br level) FileExt.bin = some f)
    (httl : 0 < ttlMs) (hage : ttlMs < now - f.mtimeMs) :
    getCacheStatus ttlMs now none = ⟨false, some "missing"⟩ ∧
    (ttlMs < now - mt → getCacheStatus ttlMs now (some mt) = ⟨false, some "expired"⟩) ∧
    (∀ t2 : Nat, ¬(0 < t2 ∧ t2 < now - mt) → getCacheStatus t2 now (some mt) = ⟨true, none⟩) ∧
    (∀ s, (audioHandler ttlMs now id br level fs metaRaw resolver download
        readFails headersSent).resp ≠ HandlerResp.hit s) ∧
    (audioHandler ttlMs now id br level fs metaRaw resolver download
        readFails headersSent).fsAfterExpiry =
      removeCacheEntry (cacheKey id br level) fs ∧
    hasFile (audioHandler ttlMs now id br level fs metaRaw resolver download
        readFails headersSent).fsAfterExpiry (cacheKey id br level) FileExt.bin = false ∧
    hasFile (audioHandler ttlMs now id br level fs metaRaw resolver download
        readFails headersSent).fsAfterExpiry (cacheKey id br level) FileExt.json = false ∧
    (audioHandler ttlMs now id br level fs metaRaw resolver download
        readFails headersSent).wasMiss = true := by
  have hstatus : getCacheStatus ttlMs now (some f.mtimeMs) = ⟨false, some "expired"⟩ := by
    simp only [getCacheStatus]
    rw [if_pos ⟨httl, hage⟩]
  have hhandler : audioHandler ttlMs now id br level fs metaRaw resolver download
      readFails headersSent =
      resolveAndFetch (cacheKey id br level) id (removeCacheEntry (cacheKey id br level) fs)
        metaRaw resolver download readFails headersSent := by
    unfold audioHandler
    simp only [hid, Bool.false_eq_true, if_false]
    rw [hfind]
    simp only [Option.map_some', hstatus]
    norm_num
  obtain ⟨hfs1, hmiss, hnohit⟩ := resolveAndFetch_shape (cacheKey id br level) id
    (removeCacheEntry (cacheKey id br level) fs) metaRaw resolver download
    readFails headersSent
  refine ⟨rfl, fun h => ?_, fun t2 h => ?_, ?_, ?_, ?_, ?_, ?_⟩
  · simp only [getCacheStatus]
    rw [if_pos ⟨httl, h⟩]
  · simp only [getCacheStatus]
    rw [if_neg h]
  · rw [hhandler]; exact hnohit
  · rw [hhandler]; exact hfs1
  · rw [hhandler, hfs1]
    exact hasFile_removeCacheEntry _ fs FileExt.bin (Or.inl rfl)
  · rw [hhandler, hfs1]
    exact hasFile_removeCacheEntry _ fs FileExt.json (Or.inr rfl)
  · rw [hhandler]; exact hmiss

theorem C4_validity_ttl_witness :
    getCacheStatus 10 100 none = ⟨false, some "missing"⟩ ∧
    getCacheStatus 10 100 (some 50) = ⟨false, some "expired"⟩ ∧
    getCacheStatus 0 100 (some 50) = ⟨true, none⟩ ∧
    (audioHandler 10 100 "s" none none [⟨"s_default", FileExt.bin, 5, 50⟩] none
      (Except.ok ⟨404, none⟩) (Except.error ()) false false).fsAfterExpiry = [] := by
  have h := C4_validity_ttl 10 100 50 "s" none none
    [⟨"s_default", FileExt.bin, 5, 50⟩] ⟨"s_default", FileExt.bin, 5, 50⟩ none
    (Except.ok ⟨404, none⟩) (Except.error ()) false false
    (by rfl) (by rfl) (by norm_num) (by norm_num)
  refine ⟨h.1, h.2.1 (by norm_num), h.2.2.1 0 (by norm_num), ?_⟩
  rw [h.2.2.2.2.1]
  rfl

lemma audioHandler_missing (ttlMs now : Nat) (id : String) (br level : Option String)
    (fs : Fs) (metaRaw : Option (Option Metadata)) (resolver : Except Unit ModuleResponse)
    (download : Except Unit Fs) (readFails headersSent : Bool)
    (hid : id.isEmpty = false)
    (hmiss : findFile fs (cacheKey id br level) FileExt.bin = none) :
    audioHandler ttlMs now id br level fs metaRaw resolver download readFails headersSent =
      resolveAndFetch (cacheKey id br level) id fs metaRaw resolver download
        readFails headersSent := by
  unfold audioHandler
  simp only [hid, Bool.false_eq_true, if_false]
  rw [hmiss]
  simp [getCacheStatus]

/-! ## C6: resolver-outcome mapping in the request handler -/

/-- C6: on a cache miss, a non-200 resolver response is forwarded with
the same status (and the same body whenever one is present); a missing,
non-array or empty `data` yields 404; a selected target without a truthy
url yields 403, distinct from 404; and a rejection of the resolver or of
the download is caught and answered as a 500 response. -/
theorem C6_resolver_outcome_mapping (ttlMs now : Nat) (id : String)
    (br level : Option String) (fs : Fs) (metaRaw : Option (Option Metadata))
    (download : Except Unit Fs) (readFails headersSent : Bool)
    (m : ModuleResponse) (it0 : SongItem) (rest : List SongItem)
    (hid : id.isEmpty = false)
    (hmiss : findFile fs (cacheKey id br level) FileExt.bin = none) :
    (m.status ≠ 200 →
      (audioHandler ttlMs now id br level fs metaRaw (.ok m) download
          readFails headersSent).resp = HandlerResp.forward m.status (fwdBodyOf m) ∧
      (∀ b, m.body = some b → fwdBodyOf m = FwdBody.fromModule b)) ∧
    (m.status = 200 →
      (∀ a l, m.body.bind (·.data) ≠ some (DataField.arr (a :: l))) →
      (audioHandler ttlMs now id br level fs metaRaw (.ok m) download
          readFails headersSent).resp = HandlerResp.notFound404) ∧
    (m.status = 200 →
      m.body.bind (·.data) = some (DataField.arr (it0 :: rest)) →
      truthyStr (((it0 :: rest).find? (fun it => it.id == id)).getD it0).url = false →
      (audioHandler ttlMs now id br level fs metaRaw (.ok m) download
          readFails headersSent).resp = HandlerResp.forbidden403) ∧
    HandlerResp.forbidden403 ≠ HandlerResp.notFound404 ∧
    (audioHandler ttlMs now id br level fs metaRaw (.error ()) download
        readFails headersSent).resp = HandlerResp.proxyError500 ∧
    (m.status = 200 →
      m.body.bind (·.data) = some (DataField.arr (it0 :: rest)) →
      truthyStr (((it0 :: rest).find? (fun it => it.id == id)).getD it0).url = true →
      (audioHandler ttlMs now id br level fs metaRaw (.ok m) (.error ())
          readFails headersSent).resp = HandlerResp.proxyError500) := by
  refine ⟨fun hne => ⟨?_, fun b hb => ?_⟩, fun h200 hnot => ?_, fun h200 hdata hfalsy => ?_,
    by simp, ?_, fun h200 hdata htruthy => ?_⟩
  · rw [audioHandler_missing ttlMs now id br level fs metaRaw _ download
      readFails headersSent hid hmiss]
    unfold resolveAndFetch
    dsimp only
    rw [if_pos hne]
  · unfold fwdBodyOf
    rw [hb]
  · rw [audioHandler_missing ttlMs now id br level fs metaRaw _ download
      readFails headersSent hid hmiss]
    unfold resolveAndFetch
    dsimp only
    rw [if_neg (fun hne => hne h200)]
    rcases hdata : m.body.bind (·.data) with _ | df
    · rfl
    · rcases df with items | _
      · rcases items with _ | ⟨a, l⟩
        · rfl
        · exact absurd hdata (hnot a l)
      · rfl
  · rw [audioHandler_missing ttlMs now id br level fs metaRaw _ download
      readFails headersSent hid hmiss]
    unfold resolveAndFetch
    dsimp only
    rw [if_neg (fun hne => hne h200), hdata]
    simp [hfalsy]
  · rw [audioHandler_missing ttlMs now id br level fs metaRaw _ download
      readFails headersSent hid hmiss]
    rfl
  · rw [audioHandler_missing ttlMs now id br level fs metaRaw _ (.error ())
      readFails headersSent hid hmiss]
    unfold resolveAndFetch
    dsimp only
    rw [if_neg (fun hne => hne h200), hdata]
    simp [htruthy]

theorem C6_resolver_outcome_mapping_witness :
    (audioHandler 0 0 "s" none none [] none
        (.ok ⟨502, some ⟨none⟩⟩) (.error ()) false false).resp =
      HandlerResp.forward 502 (FwdBody.fromModule ⟨none⟩) ∧
    (audioHandler 0 0 "s" none none [] none
        (.ok ⟨200, some ⟨some (DataField.arr [])⟩⟩) (.error ()) false false).resp =
      HandlerResp.notFound404 ∧
    (audioHandler 0 0 "s" none none [] none
        (.ok ⟨200, some ⟨some (DataField.arr [⟨"s", none, none⟩])⟩⟩)
        (.error ()) false false).resp = HandlerResp.forbidden403 ∧
    (audioHandler 0 0 "s" none none [] none
        (.error ()) (.error ()) false false).resp = HandlerResp.proxyError500 := by
  have h1 := C6_resolver_outcome_mapping 0 0 "s" none none [] none (.error ()) false false
    ⟨502, some ⟨none⟩⟩ ⟨"s", none, none⟩ [] (by rfl) (by rfl)
  have h2 := C6_resolver_outcome_mapping 0 0 "s" none none [] none (.error ()) false false
    ⟨200, some ⟨some (DataField.arr [])⟩⟩ ⟨"s", none, none⟩ [] (by rfl) (by rfl)
  have h3 := C6_resolver_outcome_mapping 0 0 "s" none none [] none (.error ()) false false
    ⟨200, some ⟨some (DataField.arr [⟨"s", none, none⟩])⟩⟩ ⟨"s", none, none⟩ []
    (by rfl) (by rfl)
  refine ⟨?_, h2.2.1 rfl (by intro a l h; simp at h), h3.2.2.1 rfl rfl (by rfl),
    h1.2.2.2.2.1⟩
  have hfwd := (h1.1 (by norm_num)).1
  rw [hfwd]
  rfl

/-! ## C9: implicit fallback to the first resolver item -/

/-- C9: when the resolver's non-empty `data` array contains no item whose
id equals the requested id (compared as strings), the handler selects the
first item, downloads its url, and caches it under the cache key derived
from the requested id. -/
theorem C9_fallback_first_item (ttlMs now : Nat) (id : String)
    (br level : Option String) (fs fsDl : Fs) (metaRaw : Option (Option Metadata))
    (readFails headersSent : Bool) (m : ModuleResponse) (it0 : SongItem)
    (rest : List SongItem)
    (hid : id.isEmpty = false)
    (hmiss : findFile fs (cacheKey id br level) FileExt.bin = none)
    (h200 : m.status = 200)
    (hdata : m.body.bind (·.data) = some (DataField.arr (it0 :: rest)))
    (hnomatch : ∀ it ∈ it0 :: rest, (it.id == id) = false)
    (hurl : truthyStr it0.url = true) :
    (audioHandler ttlMs now id br level fs metaRaw (.ok m) (.ok fsDl)
        readFails headersSent).downloadCalled =
      some (cacheKey id br level, it0.url.getD "") ∧
    (audioHandler ttlMs now id br level fs metaRaw (.ok m) (.ok fsDl)
        readFails headersSent).resp =
      HandlerResp.miss (streamCachedAudio fsDl (cacheKey id br level)
        (readCacheMetadata metaRaw) false readFails headersSent).1 := by
  have hfind : (it0 :: rest).find? (fun it => it.id == id) = none :=
    List.find?_eq_none.mpr (fun it hit => by simp [hnomatch it hit])
  have h := audioHandler_missing ttlMs now id br level fs metaRaw (.ok m) (.ok fsDl)
    readFails headersSent hid hmiss
  rw [h]
  unfold resolveAndFetch
  dsimp only
  rw [if_neg (fun hne => hne h200), hdata]
  simp [hfind, hurl]

theorem C9_fallback_first_item_witness :
    (audioHandler 0 0 "s" none none [] none
        (.ok ⟨200, some ⟨some (DataField.arr [⟨"other", some "http://u", none⟩])⟩⟩)
        (.ok [⟨"s_default", FileExt.bin, 5, 0⟩]) false false).downloadCalled =
      some ("s_default", "http://u") := by
  have h := C9_fallback_first_item 0 0 "s" none none [] [⟨"s_default", FileExt.bin, 5, 0⟩]
    none false false ⟨200, some ⟨some (DataField.arr [⟨"other", some "http://u", none⟩])⟩⟩
    ⟨"other", some "http://u", none⟩ [] (by rfl) (by rfl) rfl rfl
    (by intro it hit; simp at hit; subst hit; decide) (by rfl)
  exact h.1

/-! ## C5: cache-key derivation -/

lemma append_sep_inj (a : List Char) : ∀ (b x y : List Char), '_' ∉ a → '_' ∉ b →
    a ++ '_' :: x = b ++ '_' :: y → a = b ∧ x = y := by
  induction a with
  | nil =>
    intro b x y _ hb h
    cases b with
    | nil =>
      simp only [List.nil_append, List.cons.injEq] at h
      exact ⟨rfl, h.2⟩
    | cons c cs =>
      simp only [List.nil_append, List.cons_append, List.cons.injEq] at h
      exact absurd (by rw [← h.1]; exact List.mem_cons_self _ _) hb
  | cons c cs ih =>
    intro b x y ha hb h
    cases b with
    | nil =>
      simp only [List.cons_append, List.nil_append, List.cons.injEq] at h
      exact absurd (by rw [h.1]; exact List.mem_cons_self '_' cs) ha
    | cons d ds =>
      simp only [List.cons_append, List.cons.injEq] at h
      obtain ⟨hcd, htail⟩ := h
      have ha' : '_' ∉ cs := fun hm => ha (List.mem_cons_of_mem _ hm)
      have hb' : '_' ∉ ds := fun hm => hb (List.mem_cons_of_mem _ hm)
      obtain ⟨hab, hxy⟩ := ih ds x y ha' hb' htail
      exact ⟨by rw [hcd, hab], hxy⟩

lemma cacheKey_data (id : String) (br level : Option String) :
    (cacheKey id br level).data = id.data ++ '_' :: (qualityToken br level).data := by
  unfold cacheKey
  rw [String.data_append, String.data_append, List.append_assoc]
  rfl

/-- C5 as stated is false: the key derivation is not injective across all
distinct (id, quality) pairs.  The distinct pairs `("a_b", "c")` and
`("a", "b_c")` (the second components being the resolved quality tokens)
derive the same cache key `"a_b_c"`. -/
theorem C5_cache_key_collision :
    ("a_b", qualityToken none (some "c")) ≠ ("a", qualityToken none (some "b_c")) ∧
    cacheKey "a_b" none (some "c") = cacheKey "a" none (some "b_c") := by
  constructor
  · decide
  · rfl

/-- C5 (amended): the cache key is derived deterministically from the
track id and the quality token, where a truthy `br` takes precedence over
`level` and the literal token "default" is used when neither is truthy;
and the derivation is injective on pairs whose ids contain no underscore
(injectivity fails in general, see the collision counterexample). -/
theorem C5_cache_key_derivation (id id2 : String) (br level br2 level2 : Option String)
    (h1 : '_' ∉ id.data) (h2 : '_' ∉ id2.data) :
    (truthyStr br = true → qualityToken br level = br.getD "") ∧
    (truthyStr br = false → truthyStr level = true → qualityToken br level = level.getD "") ∧
    (truthyStr br = false → truthyStr level = false → qualityToken br level = "default") ∧
    (cacheKey id br level = cacheKey id2 br2 level2 →
      id = id2 ∧ qualityToken br level = qualityToken br2 level2) := by
  refine ⟨fun hbr => ?_, fun hbr hlv => ?_, fun hbr hlv => ?_, fun h => ?_⟩
  · simp [qualityToken, hbr]
  · simp [qualityToken, hbr, hlv]
  · simp [qualityToken, hbr, hlv]
  · have hd : (cacheKey id br level).data = (cacheKey id2 br2 level2).data := by rw [h]
    rw [cacheKey_data, cacheKey_data] at hd
    obtain ⟨ha, hb⟩ := append_sep_inj id.data id2.data
      (qualityToken br level).data (qualityToken br2 level2).data h1 h2 hd
    constructor
    · cases id; cases id2; exact congrArg String.mk ha
    · cases hq : qualityToken br level
      cases hq2 : qualityToken br2 level2
      rw [hq, hq2] at hb
      exact congrArg String.mk hb

theorem C5_cache_key_derivation_witness :
    qualityToken (some "320") (some "hi") = "320" ∧
    qualityToken none none = "default" ∧
    (cacheKey "123" (some "320") none = cacheKey "123" (some "320") none →
      ("123" : String) = "123") := by
  have h := C5_cache_key_derivation "123" "123" (some "320") none (some "320") none
    (by decide) (by decide)
  exact ⟨h.1 (by rfl), (C5_cache_key_derivation "9" "9" none none none none
    (by decide) (by decide)).2.2.1 (by rfl) (by rfl), fun hk => (h.2.2.2 hk).1⟩

/-! ## Eviction lemmas -/

lemma sumSizes_nil : sumSizes [] = 0 := rfl

lemma sumSizes_cons (e : CacheEntry) (l : List CacheEntry) :
    sumSizes (e :: l) = e.size + sumSizes l := by
  simp [sumSizes]

lemma insertByMtime_perm (e : CacheEntry) (l : List CacheEntry) :
    (insertByMtime e l).Perm (e :: l) := by
  induction l with
  | nil => exact List.Perm.refl _
  | cons x xs ih =>
    unfold insertByMtime
    split
    · exact (ih.cons x).trans (List.Perm.swap e x xs)
    · exact List.Perm.refl _

lemma sortByMtime_perm (l : List CacheEntry) : (sortByMtime l).Perm l := by
  induction l with
  | nil => exact List.Perm.refl _
  | cons x xs ih =>
    exact (insertByMtime_perm x (sortByMtime xs)).trans (ih.cons x)

lemma insertByMtime_sorted (e : CacheEntry) (l : List CacheEntry)
    (hs : l.Sorted (fun a b => a.mtimeMs ≤ b.mtimeMs)) :
    (insertByMtime e l).Sorted (fun a b => a.mtimeMs ≤ b.mtimeMs) := by
  induction l with
  | nil => simp [insertByMtime]
  | cons x xs ih =>
    rw [List.sorted_cons] at hs
    obtain ⟨hx, hxs⟩ := hs
    unfold insertByMtime
    split
    · rename_i hlt
      rw [List.sorted_cons]
      refine ⟨fun b hb => ?_, ih hxs⟩
      rcases List.mem_cons.mp ((insertByMtime_perm e xs).mem_iff.mp hb) with hb1 | hb2
      · rw [hb1]; exact Nat.le_of_lt hlt
      · exact hx b hb2
    · rename_i hge
      rw [List.sorted_cons]
      refine ⟨fun b hb => ?_, List.sorted_cons.mpr ⟨hx, hxs⟩⟩
      rcases List.mem_cons.mp hb with hb1 | hb2
      · rw [hb1]; exact Nat.le_of_not_lt hge
      · exact Nat.le_trans (Nat.le_of_not_lt hge) (hx b hb2)

lemma sortByMtime_sorted (l : List CacheEntry) :
    (sortByMtime l).Sorted (fun a b => a.mtimeMs ≤ b.mtimeMs) := by
  induction l with
  | nil => simp [sortByMtime]
  | cons x xs ih => exact insertByMtime_sorted x (sortByMtime xs) ih

lemma sumSizes_drop_evictCount (m : Nat) (l : List CacheEntry) :
    ∀ t, t = sumSizes l → sumSizes (l.drop (evictCount m l t)) ≤ m := by
  induction l with
  | nil =>
    intro t ht
    simp [evictCount, sumSizes]
  | cons e rest ih =>
    intro t ht
    rw [sumSizes_cons] at ht
    by_cases h : m < t
    · simp only [evictCount, if_pos h, List.drop_succ_cons]
      apply ih
      omega
    · simp only [evictCount, if_neg h, List.drop_zero, sumSizes_cons]
      omega

lemma evictLoop_eq_foldl (m : Nat) (l : List CacheEntry) : ∀ (t : Nat) (fs : Fs),
    evictLoop m l t fs =
      (l.take (evictCount m l t)).foldl (fun a e => removeCacheEntry e.base a) fs := by
  induction l with
  | nil => intro t fs; rfl
  | cons e rest ih =>
    intro t fs
    by_cases h : m < t
    · simp only [evictLoop, evictCount, if_pos h, List.take_succ_cons, List.foldl_cons]
      exact ih _ _
    · simp only [evictLoop, evictCount, if_neg h, List.take_zero, List.foldl_nil]

lemma scanEntries_removeCacheEntry (statOk : String → Bool) (b : String) (fs : Fs) :
    scanEntries statOk (removeCacheEntry b fs) =
      (scanEntries statOk fs).filter (fun e => !(e.base == b)) := by
  induction fs with
  | nil => rfl
  | cons f rest ih =>
    simp only [scanEntries, removeCacheEntry, List.filter_cons] at ih ⊢
    by_cases h1 : f.base = b <;> rcases hext : f.ext <;>
      by_cases h3 : statOk f.base = true <;>
      simp_all [List.filter_cons]

lemma mem_evictLoop_of_not_scanned (m : Nat) (l : List CacheEntry) :
    ∀ (t : Nat) (fs : Fs) (f : FsFile), f ∈ fs → f.ext = FileExt.tmp →
      f ∈ evictLoop m l t fs := by
  induction l with
  | nil => intro t fs f hf _; exact hf
  | cons e rest ih =>
    intro t fs f hf hext
    by_cases h : m < t
    · simp only [evictLoop, if_pos h]
      refine ih _ _ f ?_ hext
      rw [removeCacheEntry, List.mem_filter]
      refine ⟨hf, ?_⟩
      rw [hext]
      simp
    · simp only [evictLoop, if_neg h]
      exact hf

lemma scanEntries_bases_nodup (statOk : String → Bool) (fs : Fs)
    (hnd : (fs.map fileId).Nodup) :
    ((scanEntries statOk fs).map (fun e => e.base)).Nodup := by
  induction fs with
  | nil => simp [scanEntries]
  | cons f rest ih =>
    rw [List.map_cons, List.nodup_cons] at hnd
    obtain ⟨hnotin, hnd2⟩ := hnd
    simp only [scanEntries, List.filter_cons] at ih ⊢
    by_cases hp : (f.ext == FileExt.bin && statOk f.base) = true
    · rw [if_pos hp]
      rw [List.map_cons, List.map_cons, List.nodup_cons]
      refine ⟨fun hmem => ?_, ih hnd2⟩
      simp only [List.mem_map, List.mem_filter, Bool.and_eq_true, beq_iff_eq] at hmem
      obtain ⟨ce, ⟨g, ⟨hgmem, hgext, hgstat⟩, hge⟩, hbase⟩ := hmem
      simp only [Bool.and_eq_true, beq_iff_eq] at hp
      apply hnotin
      rw [List.mem_map]
      refine ⟨g, hgmem, ?_⟩
      have hgbase : g.base = f.base := by rw [← hbase, ← hge]
      unfold fileId
      rw [hgbase, hgext, hp.1]
    · rw [if_neg hp]
      exact ih hnd2

lemma scan_evictLoop_perm (m : Nat) (statOk : String → Bool) :
    ∀ (entries : List CacheEntry) (fs : Fs) (t : Nat),
      (scanEntries statOk fs).Perm entries →
      (entries.map (fun e => e.base)).Nodup →
      (scanEntries statOk (evictLoop m entries t fs)).Perm
        (entries.drop (evictCount m entries t)) := by
  intro entries
  induction entries with
  | nil =>
    intro fs t hperm _
    simpa [evictLoop, evictCount] using hperm
  | cons e rest ih =>
    intro fs t hperm hnd
    rw [List.map_cons, List.nodup_cons] at hnd
    obtain ⟨hnotin, hnd2⟩ := hnd
    by_cases h : m < t
    · simp only [evictLoop, evictCount, if_pos h, List.drop_succ_cons]
      apply ih
      · rw [scanEntries_removeCacheEntry]
        have h1 := hperm.filter (fun x => !(x.base == e.base))
        have h2 : (e :: rest).filter (fun x => !(x.base == e.base)) = rest := by
          rw [List.filter_cons]
          have he : (!(e.base == e.base)) = false := by simp
          rw [he, if_neg (by simp)]
          rw [List.filter_eq_self]
          intro x hx
          have : x.base ≠ e.base := by
            intro hc
            exact hnotin (List.mem_map.mpr ⟨x, hx, hc⟩)
          simp [this]
        rw [h2] at h1
        exact h1
      · exact hnd2
    · simp only [evictLoop, evictCount, if_neg h, List.drop_zero]
      exact hperm

lemma enforce_scan_perm_drop (m : Nat) (statOk : String → Bool) (fs : Fs)
    (hm : m ≠ 0) (hnd : (fs.map fileId).Nodup) :
    (scanEntries statOk (enforceCacheSizeLimit m true statOk fs)).Perm
      ((sortByMtime (scanEntries statOk fs)).drop
        (evictCount m (sortByMtime (scanEntries statOk fs))
          (sumSizes (sortByMtime (scanEntries statOk fs))))) := by
  unfold enforceCacheSizeLimit
  rw [if_neg hm]
  simp only [Bool.not_true, Bool.false_eq_true, if_false]
  apply scan_evictLoop_perm
  · exact (sortByMtime_perm _).symm
  · exact (((sortByMtime_perm (scanEntries statOk fs)).map
      (fun e => e.base)).nodup_iff).mpr (scanEntries_bases_nodup statOk fs hnd)

lemma enforce_sum_le (m : Nat) (statOk : String → Bool) (fs : Fs)
    (hm : m ≠ 0) (hnd : (fs.map fileId).Nodup) :
    sumSizes (scanEntries statOk (enforceCacheSizeLimit m true statOk fs)) ≤ m := by
  have hperm := enforce_scan_perm_drop m statOk fs hm hnd
  have hsum : sumSizes (scanEntries statOk (enforceCacheSizeLimit m true statOk fs)) =
      sumSizes ((sortByMtime (scanEntries statOk fs)).drop
        (evictCount m (sortByMtime (scanEntries statOk fs))
          (sumSizes (sortByMtime (scanEntries statOk fs))))) := by
    unfold sumSizes
    exact (hperm.map (fun e => e.size)).sum_eq
  rw [hsum]
  exact sumSizes_drop_evictCount m _ _ rfl

lemma sorted_take_drop_le (l : List CacheEntry) (c : Nat)
    (hs : l.Sorted (fun a b => a.mtimeMs ≤ b.mtimeMs)) :
    ∀ r ∈ l.take c, ∀ k ∈ l.drop c, r.mtimeMs ≤ k.mtimeMs := by
  rw [← List.take_append_drop c l] at hs
  exact (List.pairwise_append.mp hs).2.2

/-! ## C3: size-budget eviction -/

/-- C3: `enforceCacheSizeLimit` is a no-op when the byte budget is 0 and
when the directory listing fails (returning without error); it only
touches `.bin` entries (and their `.json` sidecars; `.tmp` files are
never removed); it removes entries as a prefix of the scan sorted
ascending by last-modified time, so every removed entry is at least as
old as every surviving one; and afterwards the total size of the
remaining blob files is at or under the budget. -/
theorem C3_size_budget_eviction (maxBytes : Nat) (readdirOk : Bool)
    (statOk : String → Bool) (fs : Fs)
    (hm : maxBytes ≠ 0) (hnd : (fs.map fileId).Nodup) :
    enforceCacheSizeLimit 0 readdirOk statOk fs = fs ∧
    enforceCacheSizeLimit maxBytes false statOk fs = fs ∧
    (∀ f ∈ fs, f.ext = FileExt.tmp →
      f ∈ enforceCacheSizeLimit maxBytes readdirOk statOk fs) ∧
    enforceCacheSizeLimit maxBytes true statOk fs =
      ((sortByMtime (scanEntries statOk fs)).take
          (evictCount maxBytes (sortByMtime (scanEntries statOk fs))
            (sumSizes (sortByMtime (scanEntries statOk fs))))).foldl
        (fun a e => removeCacheEntry e.base a) fs ∧
    (∀ r ∈ (sortByMtime (scanEntries statOk fs)).take
        (evictCount maxBytes (sortByMtime (scanEntries statOk fs))
          (sumSizes (sortByMtime (scanEntries statOk fs)))),
      ∀ k ∈ (sortByMtime (scanEntries statOk fs)).drop
        (evictCount maxBytes (sortByMtime (scanEntries statOk fs))
          (sumSizes (sortByMtime (scanEntries statOk fs)))),
        r.mtimeMs ≤ k.mtimeMs) ∧
    sumSizes (scanEntries statOk (enforceCacheSizeLimit maxBytes true statOk fs)) ≤
      maxBytes := by
  refine ⟨rfl, ?_, ?_, ?_,
    sorted_take_drop_le _ _ (sortByMtime_sorted _),
    enforce_sum_le maxBytes statOk fs hm hnd⟩
  · unfold enforceCacheSizeLimit
    rw [if_neg hm]
    rfl
  · intro f hf hext
    unfold enforceCacheSizeLimit
    rw [if_neg hm]
    cases readdirOk
    · exact hf
    · simp only [Bool.not_true, Bool.false_eq_true, if_false]
      exact mem_evictLoop_of_not_scanned _ _ _ _ f hf hext
  · unfold enforceCacheSizeLimit
    rw [if_neg hm]
    simp only [Bool.not_true, Bool.false_eq_true, if_false]
    exact evictLoop_eq_foldl _ _ _ _

theorem C3_size_budget_eviction_witness :
    enforceCacheSizeLimit 0 true (fun _ => true)
      [⟨"a", FileExt.bin, 5, 1⟩, ⟨"b", FileExt.bin, 7, 3⟩, ⟨"c", FileExt.bin, 4, 2⟩] =
      [⟨"a", FileExt.bin, 5, 1⟩, ⟨"b", FileExt.bin, 7, 3⟩, ⟨"c", FileExt.bin, 4, 2⟩] ∧
    sumSizes (scanEntries (fun _ => true)
      (enforceCacheSizeLimit 10 true (fun _ => true)
        [⟨"a", FileExt.bin, 5, 1⟩, ⟨"b", FileExt.bin, 7, 3⟩, ⟨"c", FileExt.bin, 4, 2⟩])) ≤
      10 := by
  have h := C3_size_budget_eviction 10 true (fun _ => true)
    [⟨"a", FileExt.bin, 5, 1⟩, ⟨"b", FileExt.bin, 7, 3⟩, ⟨"c", FileExt.bin, 4, 2⟩]
    (by decide) (by decide)
  exact ⟨h.1, h.2.2.2.2.2⟩

/-! ## C2: atomic persistence of the download body -/

lemma any_filter_pred (fs : Fs) (b : String) (e e' : FileExt) (hne : e' ≠ e) :
    (fs.filter (fun f => !(f.base == b && f.ext == e))).any
        (fun f => f.base == b && f.ext == e') =
      fs.any (fun f => f.base == b && f.ext == e') := by
  induction fs with
  | nil => rfl
  | cons f rest ih =>
    rw [List.filter_cons, List.any_cons]
    by_cases hq : (f.base == b && f.ext == e) = true
    · rw [if_neg (by simp [hq])]
      have hp : (f.base == b && f.ext == e') = false := by
        simp only [Bool.and_eq_true, beq_iff_eq] at hq
        have : (f.ext == e') = false :=
          beq_eq_false_iff_ne.mpr (by rw [hq.2]; exact fun h => hne h.symm)
        simp [this]
      rw [hp, ih]
      simp
    · rw [if_pos (by simp [hq]), List.any_cons, ih]

lemma hasFile_setFile_ne (fs : Fs) (b : String) (e e' : FileExt) (s t : Nat)
    (hne : e' ≠ e) :
    hasFile (setFile fs b e s t) b e' = hasFile fs b e' := by
  unfold hasFile setFile
  rw [List.any_cons]
  have hh : ((⟨b, e, s, t⟩ : FsFile).base == b && (⟨b, e, s, t⟩ : FsFile).ext == e') =
      false := by
    have : (e == e') = false := beq_eq_false_iff_ne.mpr (fun h => hne h.symm)
    simp [this]
  rw [hh]
  simp only [Bool.false_or]
  exact any_filter_pred fs b e e' hne

/-- C2: the download body writes downloaded bytes only to the `.tmp`
file; the `.bin` blob appears only through the rename of the
fully-written `.tmp`; the metadata is written strictly after the rename
(no metadata-write event precedes the rename in the trace); on any
failure before the rename the promise rejects and neither a `.bin` nor a
`.json` file for the key is created; and a caller arriving while the
fetch is pending shares the same registered promise, hence the same
rejection. -/
theorem C2_atomic_persistence (o : DlOracle) (maxBytes : Nat) (readdirOk : Bool)
    (statOk : String → Bool) (base : String) (fs : Fs) (st : InflightState) (p : Nat)
    (hin : st.inflight.lookup base = some p) :
    (∀ b e n, FsEvent.writeBytes b e n ∈
        (downloadAndCacheAudioBody o maxBytes readdirOk statOk base fs).2.2 →
      e = FileExt.tmp ∧ b = base) ∧
    metaAfterRenameIn base
      (downloadAndCacheAudioBody o maxBytes readdirOk statOk base fs).2.2 = true ∧
    (FsEvent.renameFile base FileExt.tmp base FileExt.bin ∈
        (downloadAndCacheAudioBody o maxBytes readdirOk statOk base fs).2.2 →
      FsEvent.writeBytes base FileExt.tmp o.fullBytes ∈
        (downloadAndCacheAudioBody o maxBytes readdirOk statOk base fs).2.2) ∧
    (o.ensureOk = false ∨ o.networkOk = false ∨ o.pipeOk = false →
      (∃ s, (downloadAndCacheAudioBody o maxBytes readdirOk statOk base fs).1 =
        DlResult.err s) ∧
      (hasFile fs base FileExt.bin = false →
        hasFile (downloadAndCacheAudioBody o maxBytes readdirOk statOk base fs).2.1
          base FileExt.bin = false) ∧
      (hasFile fs base FileExt.json = false →
        hasFile (downloadAndCacheAudioBody o maxBytes readdirOk statOk base fs).2.1
          base FileExt.json = false)) ∧
    (downloadAndCacheAudioEntry st base).promise = p ∧
    (downloadAndCacheAudioEntry st base).startedNew = false := by
  obtain ⟨eo, no, po, ro, mo, ib, fb, ct, cl, tn⟩ := o
  refine ⟨?_, ?_, ?_, ?_, ?_, ?_⟩
  · intro b e n hmem
    cases eo <;> cases no <;> cases po <;> cases ro <;> cases mo <;>
      simp_all [downloadAndCacheAudioBody]
  · cases eo <;> cases no <;> cases po <;> cases ro <;> cases mo <;>
      simp [downloadAndCacheAudioBody, metaAfterRenameIn]
  · intro hmem
    cases eo <;> cases no <;> cases po <;> cases ro <;> cases mo <;>
      simp_all [downloadAndCacheAudioBody]
  · intro hfail
    refine ⟨?_, fun hbin => ?_, fun hjson => ?_⟩ <;>
      [skip; skip; skip]
    · cases eo <;> cases no <;> cases po <;>
        simp_all [downloadAndCacheAudioBody]
    · cases eo <;> cases no <;> cases po <;>
        simp_all [downloadAndCacheAudioBody, hasFile_setFile_ne]
    · cases eo <;> cases no <;> cases po <;>
        simp_all [downloadAndCacheAudioBody, hasFile_setFile_ne]
  · simp [downloadAndCacheAudioEntry, hin]
  · simp [downloadAndCacheAudioEntry, hin]

theorem C2_atomic_persistence_witness :
    (∃ s, (downloadAndCacheAudioBody ⟨true, true, false, true, true, 3, 9, none, none, 5⟩
        0 true (fun _ => true) "k" []).1 = DlResult.err s) ∧
    hasFile (downloadAndCacheAudioBody ⟨true, true, false, true, true, 3, 9, none, none, 5⟩
        0 true (fun _ => true) "k" []).2.1 "k" FileExt.bin = false ∧
    (downloadAndCacheAudioEntry ⟨[("k", 4)], 5⟩ "k").promise = 4 := by
  have h := C2_atomic_persistence ⟨true, true, false, true, true, 3, 9, none, none, 5⟩
    0 true (fun _ => true) "k" [] ⟨[("k", 4)], 5⟩ 4 (by rfl)
  obtain ⟨-, -, -, hfail, hpromise, -⟩ := h
  obtain ⟨herr, hbin, -⟩ := hfail (Or.inr (Or.inr rfl))
  exact ⟨herr, hbin (by rfl), hpromise⟩

/-! ## C10: self-eviction of an over-budget fresh entry -/

lemma nodup_fileId_filter (fs : Fs) (q : FsFile → Bool)
    (hnd : (fs.map fileId).Nodup) : ((fs.filter q).map fileId).Nodup :=
  List.Nodup.sublist ((List.filter_sublist fs).map fileId) hnd

lemma nodup_fileId_setFile (fs : Fs) (b : String) (e : FileExt) (s t : Nat)
    (hnd : (fs.map fileId).Nodup) :
    ((setFile fs b e s t).map fileId).Nodup := by
  unfold setFile
  rw [List.map_cons, List.nodup_cons]
  constructor
  · intro hmem
    rw [List.mem_map] at hmem
    obtain ⟨g, hg, hid⟩ := hmem
    have hq := List.of_mem_filter hg
    simp only [fileId, Prod.mk.injEq] at hid
    simp [hid.1, hid.2] at hq
  · exact nodup_fileId_filter fs _ hnd

lemma mem_of_mem_setFile {f : FsFile} {fs : Fs} {b : String} {e : FileExt} {s t : Nat}
    (h : f ∈ setFile fs b e s t) : f = ⟨b, e, s, t⟩ ∨ f ∈ fs := by
  rcases List.mem_cons.mp h with h1 | h2
  · exact Or.inl h1
  · exact Or.inr (List.mem_of_mem_filter h2)

lemma mem_setFile_of_ne {f : FsFile} {fs : Fs} {b : String} {e : FileExt} {s t : Nat}
    (hf : f ∈ fs) (hne : (f.base == b && f.ext == e) = false) :
    f ∈ setFile fs b e s t :=
  List.mem_cons_of_mem _ (List.mem_filter.mpr ⟨hf, by simp [hne]⟩)

lemma size_le_sumSizes {x : CacheEntry} {l : List CacheEntry} (h : x ∈ l) :
    x.size ≤ sumSizes l := by
  induction l with
  | nil => cases h
  | cons a as ih =>
    rw [sumSizes_cons]
    rcases List.mem_cons.mp h with h1 | h2
    · rw [h1]; omega
    · have := ih h2; omega

lemma hasFile_bin_scan_ne_nil (fs : Fs) (b : String)
    (h : hasFile fs b FileExt.bin = true) :
    scanEntries (fun _ => true) fs ≠ [] := by
  obtain ⟨g, hg, hp⟩ := List.any_eq_true.mp h
  intro hnil
  have hmem : (⟨g.base, g.size, g.mtimeMs⟩ : CacheEntry) ∈
      scanEntries (fun _ => true) fs := by
    unfold scanEntries
    refine List.mem_map.mpr ⟨g, List.mem_filter.mpr ⟨hg, ?_⟩, rfl⟩
    simp only [Bool.and_eq_true, beq_iff_eq] at hp
    simp [hp.2]
  rw [hnil] at hmem
  exact absurd hmem (List.not_mem_nil _)

/-- C10: with a positive byte budget smaller than the freshly downloaded
blob, the size enforcement run inside the download body evicts every
scanned entry including the brand-new one, so the body still returns the
blob path while the blob file no longer exists, and the subsequent
stream of that path to the client fails with the stream error response. -/
theorem C10_self_eviction (o : DlOracle) (maxBytes : Nat) (base : String) (fs : Fs)
    (meta : Option Metadata)
    (heo : o.ensureOk = true) (hno : o.networkOk = true) (hpo : o.pipeOk = true)
    (hro : o.renameOk = true) (hmo : o.metaOk = true)
    (hm : maxBytes ≠ 0) (hbig : maxBytes < o.fullBytes)
    (hnd : (fs.map fileId).Nodup)
    (hold : ∀ f ∈ fs, f.mtimeMs < o.now) :
    (downloadAndCacheAudioBody o maxBytes true (fun _ => true) base fs).1 =
      DlResult.ok (base, FileExt.bin) ∧
    scanEntries (fun _ => true)
      (downloadAndCacheAudioBody o maxBytes true (fun _ => true) base fs).2.1 = [] ∧
    hasFile (downloadAndCacheAudioBody o maxBytes true (fun _ => true) base fs).2.1
      base FileExt.bin = false ∧
    (streamCachedAudio
        (downloadAndCacheAudioBody o maxBytes true (fun _ => true) base fs).2.1
        base meta false false false).1 =
      StreamOutcome.errorResponse (streamHeaders meta false) := by
  obtain ⟨eo, no, po, ro, mo, ib, fb, ct, cl, tn⟩ := o
  simp only at heo hno hpo hro hmo hbig hold
  subst heo hno hpo hro hmo
  have hbody : downloadAndCacheAudioBody
      ⟨true, true, true, true, true, ib, fb, ct, cl, tn⟩ maxBytes true
      (fun _ => true) base fs =
      (DlResult.ok (base, FileExt.bin),
        enforceCacheSizeLimit maxBytes true (fun _ => true)
          (setFile (setFile (deleteFile (setFile fs base FileExt.tmp fb tn)
            base FileExt.tmp) base FileExt.bin fb tn) base FileExt.json 0 tn),
        [FsEvent.writeBytes base FileExt.tmp fb,
         FsEvent.renameFile base FileExt.tmp base FileExt.bin,
         FsEvent.metaWrite base]) := by
    simp [downloadAndCacheAudioBody]
  rw [hbody]
  set fs3 : Fs := setFile (setFile (deleteFile (setFile fs base FileExt.tmp fb tn)
    base FileExt.tmp) base FileExt.bin fb tn) base FileExt.json 0 tn with hfs3
  have hnd3 : (fs3.map fileId).Nodup := by
    rw [hfs3]
    exact nodup_fileId_setFile _ _ _ _ _ (nodup_fileId_setFile _ _ _ _ _
      (nodup_fileId_filter _ _ (nodup_fileId_setFile _ _ _ _ _ hnd)))
  have hbinF : (⟨base, FileExt.bin, fb, tn⟩ : FsFile) ∈ fs3 := by
    rw [hfs3]
    exact mem_setFile_of_ne (List.mem_cons_self _ _) (by simp)
  have hec : (⟨base, fb, tn⟩ : CacheEntry) ∈ scanEntries (fun _ => true) fs3 := by
    unfold scanEntries
    exact List.mem_map.mpr ⟨⟨base, FileExt.bin, fb, tn⟩,
      List.mem_filter.mpr ⟨hbinF, by simp⟩, rfl⟩
  have hother : ∀ x ∈ scanEntries (fun _ => true) fs3,
      x = (⟨base, fb, tn⟩ : CacheEntry) ∨ x.mtimeMs < tn := by
    intro x hx
    unfold scanEntries at hx
    obtain ⟨g, hgf, hgx⟩ := List.mem_map.mp hx
    obtain ⟨hg3, hgp⟩ := List.mem_filter.mp hgf
    simp only [Bool.and_eq_true, beq_iff_eq] at hgp
    rw [hfs3] at hg3
    rcases mem_of_mem_setFile hg3 with hj | hg2
    · rw [hj] at hgp
      simp at hgp
    · rcases mem_of_mem_setFile hg2 with hb | hgd
      · left
        rw [← hgx, hb]
      · right
        have hg1 : g ∈ setFile fs base FileExt.tmp fb tn :=
          List.mem_of_mem_filter hgd
        rcases mem_of_mem_setFile hg1 with ht | hgfs
        · rw [ht] at hgp
          simp at hgp
        · rw [← hgx]
          exact hold g hgfs
  have hkept := enforce_scan_perm_drop maxBytes (fun _ => true) fs3 hm hnd3
  set sorted := sortByMtime (scanEntries (fun _ => true) fs3) with hsorted
  set c := evictCount maxBytes sorted (sumSizes sorted) with hc
  have hkeptsum : sumSizes (sorted.drop c) ≤ maxBytes := by
    rw [hc, hsorted]
    exact sumSizes_drop_evictCount maxBytes _ _ rfl
  have hkeptnil : sorted.drop c = [] := by
    by_contra hne
    by_cases hecin : (⟨base, fb, tn⟩ : CacheEntry) ∈ sorted.drop c
    · have := size_le_sumSizes hecin
      simp only at this
      omega
    · obtain ⟨k, hk⟩ := List.exists_mem_of_ne_nil _ hne
      have hecsorted : (⟨base, fb, tn⟩ : CacheEntry) ∈ sorted := by
        rw [hsorted]
        exact ((sortByMtime_perm _).mem_iff).mpr hec
      have hectake : (⟨base, fb, tn⟩ : CacheEntry) ∈ sorted.take c := by
        have hsplit : (⟨base, fb, tn⟩ : CacheEntry) ∈ sorted.take c ++ sorted.drop c := by
          rw [List.take_append_drop c sorted]
          exact hecsorted
        rcases List.mem_append.mp hsplit with h1 | h2
        · exact h1
        · exact absurd h2 hecin
      have hle := sorted_take_drop_le sorted c
        (by rw [hsorted]; exact sortByMtime_sorted _)
        _ hectake k hk
      have hkscan : k ∈ scanEntries (fun _ => true) fs3 :=
        ((sortByMtime_perm _).mem_iff).mp (List.mem_of_mem_drop hk)
      rcases hother k hkscan with hkec | hkold
      · rw [hkec] at hk
        exact hecin hk
      · simp only at hle
        omega
  have hscannil : scanEntries (fun _ => true)
      (enforceCacheSizeLimit maxBytes true (fun _ => true) fs3) = [] := by
    have hp := hkept
    rw [hkeptnil] at hp
    exact List.perm_nil.mp hp
  have hnobin : hasFile (enforceCacheSizeLimit maxBytes true (fun _ => true) fs3)
      base FileExt.bin = false := by
    by_contra hcon
    exact hasFile_bin_scan_ne_nil _ base
      (Bool.not_eq_false _ ▸ hcon) hscannil
  refine ⟨rfl, hscannil, hnobin, ?_⟩
  simp [streamCachedAudio, hnobin]

theorem C10_self_eviction_witness :
    (downloadAndCacheAudioBody ⟨true, true, true, true, true, 0, 20, none, none, 100⟩
        10 true (fun _ => true) "k" []).1 = DlResult.ok ("k", FileExt.bin) ∧
    hasFile (downloadAndCacheAudioBody ⟨true, true, true, true, true, 0, 20, none, none, 100⟩
        10 true (fun _ => true) "k" []).2.1 "k" FileExt.bin = false := by
  have h := C10_self_eviction ⟨true, true, true, true, true, 0, 20, none, none, 100⟩
    10 "k" [] none rfl rfl rfl rfl rfl (by decide) (by decide) (by decide)
    (by intro f hf; cases hf)
  exact ⟨h.1, h.2.2.1⟩

end MusicApi
